import Mathlib

/-! Verification of the `log` console writer (`codecomet_writer.go`).

A shallow embedding of `CodecometWriter.Write` and its helpers from
`src/log/codecomet_writer.go`, together with theorems settling the frozen
claims about the renderer.

Conventions of the embedding:
* Go strings are Lean `String`s (Go's byte-wise lexicographic order on valid
  UTF-8 coincides with the code-point lexicographic order used by Lean).
* The decoded event (`map[string]interface{}` produced by `encoding/json`
  with `UseNumber()`) is a list of name/value pairs with the lookup
  semantics of a Go map; a JSON value is `JVal` below.
* External collaborators (the JSON decoder, the `time` package, the sink)
  are parameters: `Write` takes the decode result, an `Ext` record of time
  oracles, and the sink's response is a field of the writer configuration.
-/

namespace CodecometLog

/-- ANSI SGR codes from the `const` block (`iota + 30`). -/
def colorBlack : Nat := 30
def colorRed : Nat := 31
def colorGreen : Nat := 32
def colorYellow : Nat := 33
def colorBlue : Nat := 34
def colorMagenta : Nat := 35
def colorCyan : Nat := 36
def colorWhite : Nat := 37
def colorBold : Nat := 1
def colorDarkGray : Nat := 65

/-- Models `zerolog.LevelFieldName` (zerolog default). -/
def levelFieldName : String := "level"
/-- Models `zerolog.TimestampFieldName` (zerolog default). -/
def timestampFieldName : String := "time"
/-- Models `zerolog.MessageFieldName` (zerolog default). -/
def messageFieldName : String := "message"
/-- Models `zerolog.CallerFieldName` (zerolog default). -/
def callerFieldName : String := "caller"
/-- Models `zerolog.ErrorFieldName` (zerolog default). -/
def errorFieldName : String := "error"
/-- Models `var ModeFieldName = "mode"` (package variable, modelled at its initial value). -/
def modeFieldName : String := "mode"
/-- Models `var ContextFieldName = "ctx"` (package variable, modelled at its initial value). -/
def contextFieldName : String := "ctx"
/-- Models `var ContextFieldDefault = "core"`. -/
def contextFieldDefault : String := "core"

/-- Models `consoleDefaultTimeFormat = time.Kitchen`. -/
def consoleDefaultTimeFormat : String := "3:04PM"

deriving instance DecidableEq for Except

/-- A decoded JSON value as seen by the writer: `encoding/json` with
`UseNumber()` produces strings, `json.Number` tokens (the original textual
token, verbatim), `nil` for JSON `null` / absent keys, and other shapes
(bools, arrays, objects).  For the other shapes the renderer makes exactly
two observations: the `fmt` "%s" rendering (`display`) and the result of
`zerolog.InterfaceMarshalFunc` = `json.Marshal` (`marshal`), so the
embedding carries those two observations. -/
inductive JVal where
  | str (s : String)
  | num (tok : String)
  | null
  | other (display : String) (marshal : Except String String)
  deriving DecidableEq, Repr

/-- The decoded event: a Go `map[string]interface{}` with unique keys,
represented as an association list. -/
def Event := List (String × JVal)

/-- Go's `evt[p]`: map lookup, a missing key yielding the `nil` interface. -/
def lookupJ (evt : Event) (f : String) : JVal :=
  (List.lookup f evt).getD .null

/-- Models `fmt.Sprintf("%s", v)` for the value shapes the writer passes around.
A `json.Number` renders as its token (its `String()` method); a `nil`
interface renders as `%!s(<nil>)` under the `%s` verb. -/
def goSprintS : JVal → String
  | .str s => s
  | .num tok => tok
  | .null => "%!s(<nil>)"
  | .other d _ => d

/-- Models `fmt.Sprintf("%-6s", ·)` applied to the `%s` rendering: left justify,
pad with spaces to a minimum width of 6 runes. -/
def goPad6 (s : String) : String :=
  s ++ String.mk (List.replicate (6 - s.length) ' ')

/-- Models `colorize`: wrap `s` in the ANSI code `c` unless `disabled`
(`fmt.Sprintf("\x1b[%dm%v\x1b[0m", c, s)`; `%s`/`%v` of a string is the
string itself, and every call site passes a string). -/
def colorize (s : String) (c : Nat) (disabled : Bool) : String :=
  if disabled then s else "\x1b[" ++ toString c ++ "m" ++ s ++ "\x1b[0m"

/-- Models `needsQuote`: true when some byte of `s` is outside `0x20..0x7e` or is
a space, backslash or double quote.  (Go scans bytes; every char above
`0x7e` is encoded by bytes above `0x7e`, so the char-wise scan agrees.) -/
def needsQuote (s : String) : Bool :=
  s.data.any fun c =>
    c.toNat < 0x20 || c.toNat > 0x7e || c = ' ' || c = '\\' || c = '"'

/-- Lower-case hex digit. -/
def hexDigit (n : Nat) : Char :=
  if n < 10 then Char.ofNat (48 + n) else Char.ofNat (87 + n)

/-- Two lower-case hex digits for a byte. -/
def hex2 (n : Nat) : String :=
  String.mk [hexDigit (n / 16 % 16), hexDigit (n % 16)]

/-- One character of `strconv.Quote` (Go stdlib, an external collaborator):
quote and backslash get a backslash; printable ASCII passes through; the
named control escapes, then `\xHH` for the remaining bytes below `0x20`
and for `0x7f`.  Non-ASCII printability (the `unicode.IsPrint` tables) is
abstracted as printable; no claim depends on non-ASCII quoting. -/
def quoteChar (c : Char) : String :=
  if c = '"' then "\\\""
  else if c = '\\' then "\\\\"
  else if 0x20 ≤ c.toNat ∧ c.toNat ≤ 0x7e then Char.toString c
  else if c = Char.ofNat 0x07 then "\\a"
  else if c = Char.ofNat 0x08 then "\\b"
  else if c = Char.ofNat 0x0c then "\\f"
  else if c = '\n' then "\\n"
  else if c = '\r' then "\\r"
  else if c = '\t' then "\\t"
  else if c = Char.ofNat 0x0b then "\\v"
  else if c.toNat < 0x20 ∨ c.toNat = 0x7f then "\\x" ++ hex2 c.toNat
  else Char.toString c

/-- Models `strconv.Quote` (Go stdlib): a double-quoted, escaped string. -/
def strconvQuote (s : String) : String :=
  "\"" ++ String.join (s.data.map quoteChar) ++ "\""

/-- Models `json.Number.Int64()` = `strconv.ParseInt(tok, 10, 64)`: an optional
sign followed by decimal digits, within the signed 64-bit range. -/
def goParseInt64 (s : String) : Option Int :=
  let core : Option (Bool × List Char) :=
    match s.data with
    | [] => none
    | '+' :: rest => some (false, rest)
    | '-' :: rest => some (true, rest)
    | l => some (false, l)
  match core with
  | none => none
  | some (neg, ds) =>
    if ds = [] ∨ ds.any (fun c => !c.isDigit) then none
    else
      let v : Nat := ds.foldl (fun a c => a * 10 + (c.toNat - 48)) 0
      let iv : Int := if neg then -(v : Int) else (v : Int)
      if iv < -(2 ^ 63) ∨ iv > 2 ^ 63 - 1 then none else some iv

/-- External collaborators from the Go `time` package, abstracted:
`parseTimeFormat s fmt` is the result of
`time.ParseInLocation(zerolog.TimeFieldFormat, s, time.Local).Local().Format(fmt)`
(`none` when the parse fails), and `unixFormat sec fmt` is
`time.Unix(sec, 0).Format(fmt)`. -/
structure Ext where
  parseTimeFormat : String → String → Option String
  unixFormat : Int → String → String

/-- Models `strings.ToUpper` restricted to ASCII (sufficient for every use here). -/
def goToUpper (s : String) : String :=
  String.mk (s.data.map Char.toUpper)

/-- The writer configuration (`CodecometWriter`).  `Out` is modelled by
`sinkErr`: the error the destination sink returns for this call's single
flush (`none` = the flush succeeds).  Formatter overrides are `none` when
unset, mirroring the `nil` checks in the code. -/
structure CodecometWriter where
  noColor : Bool
  timeFormat : String
  partsOrder : Option (List String)
  partsExclude : List String
  fieldsExclude : List String
  formatTimestamp : Option (JVal → String)
  formatLevel : Option (JVal → String)
  formatMessage : Option (JVal → String)
  formatContext : Option (JVal → String)
  formatMode : Option (JVal → String)
  formatFieldName : Option (JVal → String)
  formatFieldValue : Option (JVal → String)
  formatErrFieldName : Option (JVal → String)
  formatErrFieldValue : Option (JVal → String)
  formatExtra : Option (Event → String → Except String String)
  sinkErr : Option String

/-- Models `consoleDefaultPartsOrder()`. -/
def consoleDefaultPartsOrder : List String :=
  [timestampFieldName, levelFieldName, contextFieldName, modeFieldName,
   messageFieldName]

/-- Models `consoleDefaultFormatTimestamp`.  `zerolog.TimeFieldFormat` is at its
zerolog default (RFC3339), which matches none of the Unix sentinels, so
the numeric branch takes `sec, nsec = i, 0`.  A `json.Number` that is not
a valid `Int64` renders as its token; a nil value leaves `t = "<nil>"`. -/
def consoleDefaultFormatTimestamp (ext : Ext) (timeFormat : String)
    (noColor : Bool) (i : JVal) : String :=
  let tf := if timeFormat = "" then consoleDefaultTimeFormat else timeFormat
  let t : String :=
    match i with
    | .str tt =>
      match ext.parseTimeFormat tt tf with
      | none => tt
      | some s => s
    | .num tok =>
      match goParseInt64 tok with
      | none => tok
      | some i64 => ext.unixFormat i64 tf
    | _ => "<nil>"
  colorize t colorDarkGray noColor

/-- Models `consoleDefaultFormatLevel`.  Canonical zerolog tokens map to fixed
three-letter tags; any other string is bolded unchanged; a nil level is
`"???"` bolded; a non-string non-nil value is uppercased and sliced to its
first three bytes (Go panics when it is shorter than three bytes; the
slice is modelled by `take 3`). -/
def consoleDefaultFormatLevel (noColor : Bool) (i : JVal) : String :=
  match i with
  | .str ll =>
    if ll = "trace" then colorize "TRC" colorMagenta noColor
    else if ll = "debug" then colorize "DBG" colorYellow noColor
    else if ll = "info" then colorize "INF" colorGreen noColor
    else if ll = "warn" then colorize "WRN" colorRed noColor
    else if ll = "error" then
      colorize (colorize "ERR" colorRed noColor) colorBold noColor
    else if ll = "fatal" then
      colorize (colorize "FTL" colorRed noColor) colorBold noColor
    else if ll = "panic" then
      colorize (colorize "PNC" colorRed noColor) colorBold noColor
    else colorize ll colorBold noColor
  | .null => colorize "???" colorBold noColor
  | v => (goToUpper (goSprintS v)).take 3

/-- Models `consoleDefaultFormatContext`: a nil value becomes `"core"`, then
`%-6s` padding, then bold — with `colorize`'s `disabled` argument
hard-coded to `false`, so escapes are emitted even when `NoColor` is set. -/
def consoleDefaultFormatContext (i : JVal) : String :=
  let v := if i = .null then JVal.str "core" else i
  colorize (goPad6 (goSprintS v)) colorBold false

/-- Models `consoleDefaultFormatMode`: nil renders empty; otherwise
`"<mode>: "` in red — again with `disabled` hard-coded to `false`. -/
def consoleDefaultFormatMode (i : JVal) : String :=
  if i = .null then "" else colorize (goSprintS i ++ ": ") colorRed false

/-- Models `consoleDefaultFormatMessage`: nil renders empty, otherwise `%s`. -/
def consoleDefaultFormatMessage (i : JVal) : String :=
  if i = .null then "" else goSprintS i

/-- Models `consoleDefaultFormatFieldName`: `"\n\t\t\t<name>="` in cyan. -/
def consoleDefaultFormatFieldName (noColor : Bool) (i : JVal) : String :=
  colorize ("\n\t\t\t" ++ goSprintS i ++ "=") colorCyan noColor

/-- Models `consoleDefaultFormatFieldValue`: `%s`. -/
def consoleDefaultFormatFieldValue (i : JVal) : String :=
  goSprintS i

/-- Models `consoleDefaultFormatErrFieldName`: `"<name>="` in cyan. -/
def consoleDefaultFormatErrFieldName (noColor : Bool) (i : JVal) : String :=
  colorize (goSprintS i ++ "=") colorCyan noColor

/-- Models `consoleDefaultFormatErrFieldValue`: the value in red. -/
def consoleDefaultFormatErrFieldValue (noColor : Bool) (i : JVal) : String :=
  colorize (goSprintS i) colorRed noColor

/-- Models `writePart`: skip excluded slots; resolve the formatter (override,
slot default, raw-value fallback); append with a single leading space when
the buffer is non-empty and the formatted text is non-empty. -/
def writePart (w : CodecometWriter) (ext : Ext) (evt : Event)
    (buf : String) (p : String) : String :=
  if w.partsExclude.contains p then buf
  else
    let f : JVal → String :=
      if p = levelFieldName then
        w.formatLevel.getD (consoleDefaultFormatLevel w.noColor)
      else if p = timestampFieldName then
        w.formatTimestamp.getD
          (consoleDefaultFormatTimestamp ext w.timeFormat w.noColor)
      else if p = messageFieldName then
        w.formatMessage.getD consoleDefaultFormatMessage
      else if p = contextFieldName then
        w.formatContext.getD consoleDefaultFormatContext
      else if p = modeFieldName then
        w.formatMode.getD consoleDefaultFormatMode
      else
        w.formatFieldValue.getD consoleDefaultFormatFieldValue
    let s := f (lookupJ evt p)
    if s.length > 0 then
      (if buf.length > 0 then buf ++ " " else buf) ++ s
    else buf

/-- The part loop of `Write`: `for _, p := range w.PartsOrder`, with the
`nil` slice replaced by the default order first. -/
def writeParts (w : CodecometWriter) (ext : Ext) (evt : Event) : String :=
  (w.partsOrder.getD consoleDefaultPartsOrder).foldl (writePart w ext evt) ""

/-- The exclusion tests of `writeFields`' collection loop: the configured
field-exclusion list, then the recognized slot names. -/
def shouldSkip (w : CodecometWriter) (field : String) : Bool :=
  w.fieldsExclude.contains field ||
  field == levelFieldName || field == timestampFieldName ||
  field == messageFieldName || field == callerFieldName ||
  field == contextFieldName || field == modeFieldName

/-- The candidate field names, in map order. -/
def candidateFields (w : CodecometWriter) (evt : Event) : List String :=
  (evt.map Prod.fst).filter fun f => !shouldSkip w f

/-- Go's `<` on strings: byte-wise lexicographic.  On valid UTF-8 the
byte-wise order coincides with the code-point lexicographic order, which
this computes character-wise. -/
def strLtb : List Char → List Char → Bool
  | [], [] => false
  | [], _ :: _ => true
  | _ :: _, [] => false
  | a :: as, b :: bs =>
    if a < b then true else if b < a then false else strLtb as bs

/-- Go's `a <= b` on strings (`!(b < a)`). -/
def goLe (a b : String) : Bool :=
  !strLtb b.data a.data

/-- Models `goLe` as a relation, for the sorting lemmas. -/
def goLeRel (a b : String) : Prop :=
  goLe a b = true

instance : DecidableRel goLeRel :=
  fun a b => inferInstanceAs (Decidable (goLe a b = true))

/-- Models `sort.Strings`: byte-wise ascending.  The algorithm differs (Go uses an
unstable pdqsort) but the keys of a map are distinct, so the sorted result
is the unique ascending permutation; insertion sort produces it and is
kernel-reducible. -/
def sortStrings (l : List String) : List String :=
  List.insertionSort goLeRel l

/-- The error-promotion block of `writeFields`.  `sort.Search` performs
binary search for the least index at which the predicate
`fields[i] >= "error"` holds; on the sorted slice it is applied to (the
only call site), that least index is `findIdx`.  When the entry there is
`"error"`, it is blanked, `"error"` is prepended, and the blank entries
are dropped. -/
def promoteError (fields : List String) : List String :=
  let ei := fields.findIdx fun f => goLe errorFieldName f
  if ei < fields.length && fields.getD ei "" == errorFieldName then
    let blanked := fields.set ei ""
    (errorFieldName :: blanked).filter fun f => f != ""
  else fields

/-- The final rendering order of the fields. -/
def fieldOrder (w : CodecometWriter) (evt : Event) : List String :=
  promoteError (sortStrings (candidateFields w evt))

/-- Models `fmt.Fprintf` with a format string containing a single `%v` verb (the
only formatted print in `writeFields`): emit the format, the `%v`
replaced by the argument. -/
def substPercentV : List Char → List Char → List Char
  | [], _ => []
  | '%' :: 'v' :: rest, arg => arg ++ rest
  | c :: rest, arg => c :: substPercentV rest arg

/-- String-level wrapper for `substPercentV`. -/
def sprintf1 (t arg : String) : String :=
  String.mk (substPercentV t.data arg.data)

/-- The body of `writeFields`' per-field loop: resolve the name/value
formatter pair (error-specific for the `"error"` key), then render
`name=value`.  String values are quoted when `needsQuote`; `json.Number`
values keep their token; any other shape goes through
`zerolog.InterfaceMarshalFunc` (= `json.Marshal`, so a nil value marshals
to `"null"` without error), a marshal failure rendering the inline
`[error: <cause>]` diagnostic (`fmt.Fprintf` of the colorized format
string, its single `%v` replaced by the cause). -/
def renderOneField (w : CodecometWriter) (evt : Event) (field : String) :
    String :=
  let fn : JVal → String :=
    if field = errorFieldName then
      w.formatErrFieldName.getD (consoleDefaultFormatErrFieldName w.noColor)
    else
      w.formatFieldName.getD (consoleDefaultFormatFieldName w.noColor)
  let fv : JVal → String :=
    if field = errorFieldName then
      w.formatErrFieldValue.getD (consoleDefaultFormatErrFieldValue w.noColor)
    else
      w.formatFieldValue.getD consoleDefaultFormatFieldValue
  let valStr : String :=
    match lookupJ evt field with
    | .str s => if needsQuote s then fv (.str (strconvQuote s)) else fv (.str s)
    | .num tok => fv (.num tok)
    | .null => fv (.str "null")
    | .other _ m =>
      match m with
      | .error e => sprintf1 (colorize "[error: %v]" colorRed w.noColor) e
      | .ok b => fv (.str b)
  fn (.str field) ++ valStr

/-- The field loop: a space after every entry but the last. -/
def renderFieldsList (w : CodecometWriter) (evt : Event) :
    List String → String
  | [] => ""
  | [f] => renderOneField w evt f
  | f :: g :: rest =>
    renderOneField w evt f ++ " " ++ renderFieldsList w evt (g :: rest)

/-- Models `writeFields`: collect, sort, write the two-space separator when both
the buffer and the (pre-promotion) field list are non-empty, promote the
error field, then render the entries. -/
def writeFields (w : CodecometWriter) (evt : Event) (buf : String) : String :=
  let fields := sortStrings (candidateFields w evt)
  let buf1 := if buf.length > 0 ∧ fields.length > 0 then buf ++ "  " else buf
  buf1 ++ renderFieldsList w evt (promoteError fields)

/-- The buffer contents after the part loop and the field loop. -/
def lineBody (w : CodecometWriter) (ext : Ext) (evt : Event) : String :=
  writeFields w evt (writeParts w ext evt)

/-- The extension-hook step: when `FormatExtra` is set, its result (the
hook may rewrite the buffer) or its error; otherwise the buffer as is. -/
def hookRes (w : CodecometWriter) (ext : Ext) (evt : Event) :
    Except String String :=
  match w.formatExtra with
  | none => .ok (lineBody w ext evt)
  | some fe => fe evt (lineBody w ext evt)

/-- The result of one `Write` call: the returned byte count, the returned
error, and the bytes handed to the destination sink. -/
structure WriteResult where
  n : Nat
  err : Option String
  out : String
  deriving DecidableEq, Repr

/-- Models `CodecometWriter.Write`.  `p` is the input byte slice, `dec` the
result of the external `json` decode of `p` (`UseNumber` preserving
numeric tokens).  On a decode failure the named return `n` is still zero
and nothing reaches the sink; likewise on a hook failure.  Writing the
terminator into a `bytes.Buffer` cannot fail, so the dead error check
after `WriteByte` is not modelled.  On the flush path the call returns
`len(p)` together with whatever error the sink produced. -/
def write (w : CodecometWriter) (ext : Ext) (p : List Nat)
    (dec : Except String Event) : WriteResult :=
  match dec with
  | .error msg => { n := 0, err := some ("cannot decode event: " ++ msg), out := "" }
  | .ok evt =>
    match hookRes w ext evt with
    | .error e => { n := 0, err := some e, out := "" }
    | .ok buf => { n := p.length, err := w.sinkErr, out := buf ++ "\n" }

/-- A writer with every option at its constructed default
(`NewCodecometWriter` with no option functions, a well-behaved sink). -/
def defaultWriter : CodecometWriter where
  noColor := false
  timeFormat := consoleDefaultTimeFormat
  partsOrder := some consoleDefaultPartsOrder
  partsExclude := []
  fieldsExclude := []
  formatTimestamp := none
  formatLevel := none
  formatMessage := none
  formatContext := none
  formatMode := none
  formatFieldName := none
  formatFieldValue := none
  formatErrFieldName := none
  formatErrFieldValue := none
  formatExtra := none
  sinkErr := none

/-- Concrete time oracles for closed evaluations (their values are never
reached by the inputs used). -/
def extNone : Ext where
  parseTimeFormat := fun _ _ => none
  unixFormat := fun _ _ => ""

/-- The default configuration with the color-disable flag set. -/
def wNoColor : CodecometWriter := { defaultWriter with noColor := true }

/-- Color disabled and an empty (non-nil) part-slot order. -/
def wNoParts : CodecometWriter :=
  { defaultWriter with noColor := true, partsOrder := some [] }

/-- The canonical zerolog level tokens. -/
def canonicalLevels : List String :=
  ["trace", "debug", "info", "warn", "error", "fatal", "panic"]

/-- A default writer whose extension hook always fails. -/
def wHookFail : CodecometWriter :=
  { defaultWriter with formatExtra := some fun _ _ => .error "hook failed" }

/-- Color disabled and a destination sink whose single write fails. -/
def wSinkFail : CodecometWriter :=
  { defaultWriter with noColor := true, sinkErr := some "sink closed" }

end CodecometLog

namespace CodecometLog

/-- Claim **C4** — For every input that is not a well-formed single encoded
object, `Write` returns the wrapped decode error together with a byte
count of zero, and nothing is handed to the destination sink. -/
theorem write_decode_failure (w : CodecometWriter) (ext : Ext)
    (p : List Nat) (msg : String) :
    write w ext p (.error msg) =
      { n := 0, err := some ("cannot decode event: " ++ msg), out := "" } := by
  rfl

/-! Section: Order lemmas for the byte-wise string comparison -/

theorem strLtb_irrefl : ∀ x : List Char, strLtb x x = false
  | [] => rfl
  | a :: as => by simp [strLtb, lt_irrefl, strLtb_irrefl as]

theorem strLtb_asymm : ∀ x y : List Char,
    strLtb x y = true → strLtb y x = false
  | [], [], h => by simp [strLtb] at h
  | [], _ :: _, _ => by simp [strLtb]
  | _ :: _, [], h => by simp [strLtb] at h
  | a :: as, b :: bs, h => by
    by_cases hab : a < b
    · simp [strLtb, hab, lt_asymm hab]
    · by_cases hba : b < a
      · simp [strLtb, hab, hba] at h
      · simp only [strLtb, if_neg hab, if_neg hba] at h
        simp [strLtb, hab, hba, strLtb_asymm as bs h]

theorem strLtb_trans : ∀ x y z : List Char,
    strLtb x y = true → strLtb y z = true → strLtb x z = true
  | [], [], _, h1, _ => by simp [strLtb] at h1
  | [], _ :: _, [], _, h2 => by simp [strLtb] at h2
  | [], _ :: _, _ :: _, _, _ => by simp [strLtb]
  | _ :: _, [], _, h1, _ => by simp [strLtb] at h1
  | _ :: _, _ :: _, [], _, h2 => by simp [strLtb] at h2
  | a :: as, b :: bs, c :: cs, h1, h2 => by
    by_cases hab : a < b
    · by_cases hbc : b < c
      · simp [strLtb, lt_trans hab hbc]
      · by_cases hcb : c < b
        · simp [strLtb, hbc, hcb] at h2
        · have hbceq : b = c := le_antisymm (not_lt.mp hcb) (not_lt.mp hbc)
          subst hbceq
          simp [strLtb, hab]
    · by_cases hba : b < a
      · simp [strLtb, hab, hba] at h1
      · have habeq : a = b := le_antisymm (not_lt.mp hba) (not_lt.mp hab)
        subst habeq
        simp only [strLtb, if_neg (lt_irrefl a)] at h1
        by_cases hac : a < c
        · simp [strLtb, hac]
        · by_cases hca : c < a
          · simp [strLtb, hac, hca] at h2
          · simp only [strLtb, if_neg hac, if_neg hca] at h2 ⊢
            exact strLtb_trans as bs cs h1 h2

theorem strLtb_connex : ∀ x y : List Char,
    strLtb x y = false → strLtb y x = false → x = y
  | [], [], _, _ => rfl
  | [], _ :: _, h1, _ => by simp [strLtb] at h1
  | _ :: _, [], _, h2 => by simp [strLtb] at h2
  | a :: as, b :: bs, h1, h2 => by
    by_cases hab : a < b
    · simp [strLtb, hab] at h1
    · by_cases hba : b < a
      · simp [strLtb, hba] at h2
      · simp only [strLtb, if_neg hab, if_neg hba] at h1 h2
        have habeq : a = b := le_antisymm (not_lt.mp hba) (not_lt.mp hab)
        rw [habeq, strLtb_connex as bs h1 h2]

theorem goLe_refl (a : String) : goLe a a = true := by
  simp [goLe, strLtb_irrefl]

theorem goLe_total (a b : String) : goLe a b = true ∨ goLe b a = true := by
  unfold goLe
  cases h : strLtb b.data a.data with
  | false => exact Or.inl rfl
  | true => exact Or.inr (by simp [strLtb_asymm _ _ h])

theorem goLe_antisymm (a b : String) (h1 : goLe a b = true)
    (h2 : goLe b a = true) : a = b := by
  simp only [goLe, Bool.not_eq_true'] at h1 h2
  have : a.data = b.data := strLtb_connex a.data b.data h2 h1
  cases a; cases b
  exact congrArg String.mk this

theorem goLe_trans (a b c : String) (h1 : goLe a b = true)
    (h2 : goLe b c = true) : goLe a c = true := by
  simp only [goLe, Bool.not_eq_true'] at h1 h2 ⊢
  by_contra hca
  have hca' : strLtb c.data a.data = true := by
    cases h : strLtb c.data a.data
    · exact absurd h hca
    · rfl
  cases hbc : strLtb b.data c.data with
  | true =>
    have := strLtb_trans b.data c.data a.data hbc hca'
    simp [this] at h1
  | false =>
    have hbceq : b.data = c.data := strLtb_connex b.data c.data hbc h2
    rw [← hbceq] at hca'
    rw [hca'] at h1
    simp at h1

instance : IsTotal String goLeRel := ⟨fun a b => goLe_total a b⟩

instance : IsTrans String goLeRel := ⟨fun a b c => goLe_trans a b c⟩

/-! Section: The error-promotion lemma (claim C3) -/

/-- On a sorted list containing `"error"`, the guard of the promotion
fires, and blanking the found slot then dropping blanks is the same as
erasing `"error"` and dropping the empty-named entries. -/
theorem promote_core : ∀ s : List String, s.Sorted goLeRel →
    errorFieldName ∈ s →
    (s.findIdx (fun f => goLe errorFieldName f) < s.length ∧
      s.getD (s.findIdx (fun f => goLe errorFieldName f)) "" = errorFieldName) ∧
    ((s.set (s.findIdx (fun f => goLe errorFieldName f)) "").filter
        (fun f => f != "") =
      (s.erase errorFieldName).filter (fun f => f != ""))
  | [], _, hmem => absurd hmem (List.not_mem_nil _)
  | a :: t, hs, hmem => by
    by_cases hga : goLe errorFieldName a = true
    · have ha : a = errorFieldName := by
        rcases List.mem_cons.mp hmem with h | h
        · exact h.symm
        · exact goLe_antisymm a errorFieldName
            ((List.sorted_cons.mp hs).1 errorFieldName h) hga
      subst ha
      have hidx : (errorFieldName :: t).findIdx
          (fun f => goLe errorFieldName f) = 0 := by
        simp [List.findIdx_cons, goLe_refl]
      refine ⟨⟨by simp [hidx], by simp [hidx]⟩, ?_⟩
      rw [hidx, List.erase_cons_head]
      simp [List.filter_cons]
    · have ha : a ≠ errorFieldName := by
        intro h; rw [h] at hga; exact hga (goLe_refl errorFieldName)
      have hmem' : errorFieldName ∈ t := by
        rcases List.mem_cons.mp hmem with h | h
        · exact absurd h.symm ha
        · exact h
      have hga' : (goLe errorFieldName a) = false := by
        cases h : goLe errorFieldName a
        · rfl
        · exact absurd h hga
      obtain ⟨⟨hlt, hget⟩, hfilter⟩ :=
        promote_core t (List.sorted_cons.mp hs).2 hmem'
      have hidx : (a :: t).findIdx (fun f => goLe errorFieldName f) =
          t.findIdx (fun f => goLe errorFieldName f) + 1 := by
        simp [List.findIdx_cons, hga']
      refine ⟨⟨?_, ?_⟩, ?_⟩
      · rw [hidx]; simpa using Nat.succ_lt_succ hlt
      · rw [hidx, List.getD_cons_succ]; exact hget
      · rw [hidx, List.set_cons_succ,
          List.erase_cons_tail (by simpa using ha)]
        simp only [List.filter_cons]
        rw [hfilter]

/-- When `"error"` is not among the fields, the promotion leaves the list
unchanged (no sortedness needed: the guard cannot fire). -/
theorem promote_id (s : List String) (hmem : errorFieldName ∉ s) :
    promoteError s = s := by
  unfold promoteError
  have : ¬(s.findIdx (fun f => goLe errorFieldName f) < s.length ∧
      s.getD (s.findIdx (fun f => goLe errorFieldName f)) "" = errorFieldName) := by
    rintro ⟨hlt, hget⟩
    rw [List.getD_eq_getElem s "" hlt] at hget
    exact hmem (hget ▸ List.getElem_mem hlt)
  rw [if_neg]
  simp only [Bool.and_eq_true, decide_eq_true_eq, beq_iff_eq, not_and] at this ⊢
  intro h
  exact fun hb => (this (by simpa using h)) (by simpa using hb)

/-- On a sorted list containing `"error"`, the promotion moves `"error"`
to the front and keeps every other non-empty entry in order. -/
theorem promote_of_sorted (s : List String) (hs : s.Sorted goLeRel)
    (hmem : errorFieldName ∈ s) :
    promoteError s =
      errorFieldName :: (s.erase errorFieldName).filter (fun f => f != "") := by
  obtain ⟨⟨hlt, hget⟩, hfilter⟩ := promote_core s hs hmem
  unfold promoteError
  rw [if_pos]
  · simp only [List.filter_cons]
    rw [if_pos (by decide)]
    exact congrArg _ hfilter
  · rw [List.getD_eq_getElem s "" hlt] at hget
    simp [hlt, hget]

/-! Section: Locating one field's rendering inside the output -/

theorem lookup_mem_keys :
    ∀ (evt : List (String × JVal)) (f : String) (v : JVal),
    List.lookup f evt = some v → f ∈ evt.map Prod.fst
  | [], _, _, h => by simp at h
  | (a, b) :: t, f, v, h => by
    by_cases hfa : f = a
    · simp [hfa]
    · have hba : (f == a) = false := by simpa using hfa
      simp only [List.lookup, hba] at h
      simp only [List.map_cons, List.mem_cons]
      exact Or.inr (lookup_mem_keys t f v h)

theorem renderFieldsList_split (w : CodecometWriter) (evt : Event) :
    ∀ (fields : List String) (f : String), f ∈ fields →
    ∃ l r : List Char, (renderFieldsList w evt fields).data =
      l ++ (renderOneField w evt f).data ++ r
  | [], f, h => absurd h (List.not_mem_nil f)
  | [x], f, h => by
    have hfx : f = x := by simpa using h
    subst hfx
    exact ⟨[], [], by simp [renderFieldsList]⟩
  | x :: y :: t, f, h => by
    rcases List.mem_cons.mp h with hfx | h'
    · subst hfx
      refine ⟨[], (" ").data ++ (renderFieldsList w evt (y :: t)).data, ?_⟩
      simp [renderFieldsList, String.data_append]
    · obtain ⟨l, r, hre⟩ := renderFieldsList_split w evt (y :: t) f h'
      refine ⟨(renderOneField w evt x).data ++ (" ").data ++ l, r, ?_⟩
      simp [renderFieldsList, String.data_append, hre]

/-- A field that is a candidate, has a non-empty name, and is looked up
successfully appears in the final rendering order. -/
theorem mem_fieldOrder (w : CodecometWriter) (evt : Event) (f : String)
    (v : JVal) (hl : List.lookup f evt = some v)
    (hskip : shouldSkip w f = false) (hne : f ≠ "") :
    f ∈ fieldOrder w evt := by
  have h1 : f ∈ evt.map Prod.fst := lookup_mem_keys evt f v hl
  have h2 : f ∈ candidateFields w evt :=
    List.mem_filter.mpr ⟨h1, by simp [hskip]⟩
  have h3 : f ∈ sortStrings (candidateFields w evt) :=
    (List.mem_insertionSort goLeRel).mpr h2
  unfold fieldOrder
  have hsorted : (sortStrings (candidateFields w evt)).Sorted goLeRel :=
    List.sorted_insertionSort goLeRel _
  by_cases hmem : errorFieldName ∈ sortStrings (candidateFields w evt)
  · rw [promote_of_sorted _ hsorted hmem]
    by_cases hfe : f = errorFieldName
    · subst hfe; exact List.mem_cons_self _ _
    · refine List.mem_cons.mpr (Or.inr (List.mem_filter.mpr ⟨?_, by simp [hne]⟩))
      exact (List.mem_erase_of_ne hfe).mpr h3
  · rw [promote_id _ hmem]; exact h3

/-- The rendering of any field in the final order occurs inside the
`writeFields` output. -/
theorem writeFields_contains (w : CodecometWriter) (evt : Event)
    (f : String) (hf : f ∈ fieldOrder w evt) (buf : String) :
    ∃ l r : List Char, (writeFields w evt buf).data =
      l ++ (renderOneField w evt f).data ++ r := by
  obtain ⟨l, r, h⟩ := renderFieldsList_split w evt (fieldOrder w evt) f hf
  unfold writeFields
  refine ⟨(if buf.length > 0 ∧ (sortStrings (candidateFields w evt)).length > 0
    then buf ++ "  " else buf).data ++ l, r, ?_⟩
  rw [String.data_append]
  rw [show promoteError (sortStrings (candidateFields w evt))
      = fieldOrder w evt from rfl, h]
  simp

/-- With color disabled and the default field formatters, the entry for a
`json.Number`-valued field `f` is rendered as (a prefix followed by)
`f=<token>` with the token emitted verbatim. -/
theorem renderOne_num (w : CodecometWriter) (evt : Event) (f tok : String)
    (hnc : w.noColor = true) (hfn : w.formatFieldName = none)
    (hefn : w.formatErrFieldName = none) (hfv : w.formatFieldValue = none)
    (hefv : w.formatErrFieldValue = none)
    (hl : lookupJ evt f = .num tok) :
    ∃ pre : List Char, (renderOneField w evt f).data =
      pre ++ (f ++ "=" ++ tok).data := by
  by_cases hfe : f = errorFieldName
  · refine ⟨[], ?_⟩
    subst hfe
    simp [renderOneField, hl, hefn, hefv, hnc, consoleDefaultFormatErrFieldName,
      consoleDefaultFormatErrFieldValue, colorize, goSprintS, String.data_append]
  · refine ⟨("\n\t\t\t").data, ?_⟩
    simp [renderOneField, hl, hfe, hfn, hfv, hnc, consoleDefaultFormatFieldName,
      consoleDefaultFormatFieldValue, colorize, goSprintS, String.data_append]

/-- With color disabled and the default field formatters, the entry for a
field whose generic marshalling fails is rendered as (a prefix followed
by) `f=[error: <cause>]`. -/
theorem renderOne_marshal_failure (w : CodecometWriter) (evt : Event)
    (f d cause : String)
    (hnc : w.noColor = true) (hfn : w.formatFieldName = none)
    (hefn : w.formatErrFieldName = none)
    (hl : lookupJ evt f = .other d (.error cause)) :
    ∃ pre : List Char, (renderOneField w evt f).data =
      pre ++ (f ++ "=[error: " ++ cause ++ "]").data := by
  have hdiag : (sprintf1 "[error: %v]" cause).data
      = '[' :: 'e' :: 'r' :: 'r' :: 'o' :: 'r' :: ':' :: ' '
        :: (cause.data ++ [']']) := rfl
  by_cases hfe : f = errorFieldName
  · refine ⟨[], ?_⟩
    subst hfe
    simp [renderOneField, hl, hefn, hnc, consoleDefaultFormatErrFieldName,
      colorize, goSprintS, String.data_append, hdiag]
  · refine ⟨("\n\t\t\t").data, ?_⟩
    simp [renderOneField, hl, hfe, hfn, hnc, consoleDefaultFormatFieldName,
      colorize, goSprintS, String.data_append, hdiag]

/-- Claim **C1** — With the color-disable flag set and the default
configuration, rendering the record `{}` still emits ANSI escape bytes:
the default context formatter wraps `"core  "` in `ESC[1m … ESC[0m`
because it passes `disabled = false` to `colorize`, defeating `NoColor`'s
documented purpose. -/
theorem write_default_noColor_context_escapes :
    write wNoColor extNone [123, 125] (.ok []) =
      { n := 2, err := none, out := "<nil> ??? \x1b[1mcore  \x1b[0m\n" } ∧
    '\x1b' ∈ (write wNoColor extNone [123, 125] (.ok [])).out.data := by
  exact ⟨by decide, by decide⟩

/-- Claim **C2 counterexample** — The record `{a:"2", b:"1"}` with an empty
part-slot order, no exclusions, default formatters and color disabled does
not render the claimed `b=1 a=2` line: names are sorted ascending (`a`
before `b`) and the default field-name formatter prefixes every name with
a newline and three tabs. -/
theorem write_sorted_fields_counterexample :
    (write wNoParts extNone [1] (.ok [("a", .str "2"), ("b", .str "1")])).out
      ≠ "b=1 a=2\n" := by
  decide

/-- Claim **C2 (amended)** — The record `{a:"2", b:"1"}` with an empty part-slot
order, no exclusions, default formatters and color disabled renders the
field block as exactly `\n\t\t\ta=2 \n\t\t\tb=1`: candidates sorted
byte-wise ascending, each name carrying the default formatter's
newline-and-three-tab prefix, one space between entries, and no leading
two-space field-block separator since the part block produced no
content. -/
theorem write_sorted_fields_block :
    (write wNoParts extNone [1] (.ok [("a", .str "2"), ("b", .str "1")])).out
      = "\n\t\t\ta=2 \n\t\t\tb=1\n" := by
  decide

/-- Claim **C3 counterexample** — For the record `{"": "x", "error": "boom"}`
(no exclusions), the empty-string key is a candidate, yet the final
rendering order is just `["error"]`: the promotion blanks the `"error"`
slot and then drops every empty entry, the genuine empty-named field
included.  The claimed preservation of all other candidates fails. -/
theorem fieldOrder_drops_empty_name_counterexample :
    candidateFields defaultWriter [("", .str "x"), ("error", .str "boom")]
      = ["", "error"] ∧
    fieldOrder defaultWriter [("", .str "x"), ("error", .str "boom")]
      = ["error"] := by
  exact ⟨by decide, by decide⟩

/-- Claim **C3 (amended)** — If `"error"` is among the sorted candidates, the
final field order places it at index 0 and keeps every other candidate
with a non-empty name in its sorted relative position (stable promotion,
not a re-sort); candidates whose name is the empty string are dropped by
the promotion's blank filter.  If `"error"` is absent, the sorted order is
unchanged. -/
theorem fieldOrder_error_promotion (w : CodecometWriter) (evt : Event) :
    (errorFieldName ∈ candidateFields w evt →
      fieldOrder w evt = errorFieldName ::
        ((sortStrings (candidateFields w evt)).erase errorFieldName).filter
          (fun f => f != "")) ∧
    (errorFieldName ∉ candidateFields w evt →
      fieldOrder w evt = sortStrings (candidateFields w evt)) := by
  constructor
  · intro hmem
    exact promote_of_sorted _ (List.sorted_insertionSort goLeRel _)
      ((List.mem_insertionSort goLeRel).mpr hmem)
  · intro hmem
    exact promote_id _ fun h => hmem ((List.mem_insertionSort goLeRel).mp h)

/-- Witness for `fieldOrder_error_promotion` at the spec's own example
record `{error:"boom", a:"1"}`. -/
theorem fieldOrder_error_promotion_witness :
    errorFieldName ∈ candidateFields defaultWriter
      [("a", JVal.str "1"), ("error", JVal.str "boom")] ∧
    fieldOrder defaultWriter [("a", JVal.str "1"), ("error", JVal.str "boom")]
      = errorFieldName ::
        ((sortStrings (candidateFields defaultWriter
            [("a", JVal.str "1"), ("error", JVal.str "boom")])).erase
          errorFieldName).filter (fun f => f != "") :=
  ⟨by decide,
    (fieldOrder_error_promotion defaultWriter
      [("a", JVal.str "1"), ("error", JVal.str "boom")]).1 (by decide)⟩

/-- Claim **C7 counterexample** — The default level formatter returns a
non-canonical string unchanged (merely bolded; with color disabled,
verbatim): `"verbose"` is not uppercased, truncated or padded, contrary to
the claim. -/
theorem formatLevel_other_string_counterexample :
    consoleDefaultFormatLevel true (.str "verbose") = "verbose" ∧
    "verbose" ≠ goToUpper "verbose" ∧
    consoleDefaultFormatLevel false (.str "warn") = "\x1b[31mWRN\x1b[0m" ∧
    consoleDefaultFormatLevel false (.str "error")
      = "\x1b[1m\x1b[31mERR\x1b[0m\x1b[0m" := by
  exact ⟨by decide, by decide, by decide, by decide⟩

/-- Claim **C5** — Whenever the configured extension hook fails on the rendered
buffer, `Write` returns the hook's error with a byte count of zero, no
trailing line terminator is appended, and nothing at all is handed to the
destination sink. -/
theorem write_hook_failure (w : CodecometWriter) (ext : Ext) (p : List Nat)
    (evt : Event) (fe : Event → String → Except String String) (e : String)
    (h1 : w.formatExtra = some fe)
    (h2 : fe evt (lineBody w ext evt) = .error e) :
    write w ext p (.ok evt) = { n := 0, err := some e, out := "" } := by
  simp [write, hookRes, h1, h2]

/-- Witness for `write_hook_failure` at a concrete configuration whose
hook always fails. -/
theorem write_hook_failure_witness :
    wHookFail.formatExtra = some (fun _ _ => Except.error "hook failed") ∧
    write wHookFail extNone [7] (.ok []) =
      { n := 0, err := some "hook failed", out := "" } :=
  ⟨rfl, write_hook_failure wHookFail extNone [7] []
    (fun _ _ => Except.error "hook failed") "hook failed" rfl rfl⟩

/-- Claim **C10** — The byte count returned by `Write` is `len(p)` exactly when
decoding and the extension hook succeed — including a failing final flush,
where `len(p)` is returned together with the sink's error — and is zero
when decoding or the hook fails; it is never the number of rendered
bytes. -/
theorem write_count_is_input_length (w : CodecometWriter) (ext : Ext)
    (p : List Nat) (dec : Except String Event) :
    (∀ msg, dec = .error msg → (write w ext p dec).n = 0) ∧
    (∀ evt e, dec = .ok evt → hookRes w ext evt = .error e →
      (write w ext p dec).n = 0) ∧
    (∀ evt b, dec = .ok evt → hookRes w ext evt = .ok b →
      (write w ext p dec).n = p.length ∧
      (write w ext p dec).err = w.sinkErr) := by
  refine ⟨?_, ?_, ?_⟩
  · intro msg h; subst h; rfl
  · intro evt e h hr; subst h; simp [write, hr]
  · intro evt b h hr; subst h; simp [write, hr]

/-- Witness for `write_count_is_input_length`: a three-byte input with a
failing sink still reports three bytes written, alongside the sink
error. -/
theorem write_count_is_input_length_witness :
    hookRes wSinkFail extNone [] = .ok (lineBody wSinkFail extNone []) ∧
    (write wSinkFail extNone [1, 2, 3] (.ok [])).n = 3 ∧
    (write wSinkFail extNone [1, 2, 3] (.ok [])).err = some "sink closed" :=
  ⟨rfl, (write_count_is_input_length wSinkFail extNone [1, 2, 3]
    (.ok [])).2.2 [] (lineBody wSinkFail extNone []) rfl rfl⟩

/-- Claim **C9 (amended)** — One line terminator is always appended: every call
on which `Write` reaches the flush (in particular every successful call)
hands the sink its rendered buffer followed by one appended terminator, so
sucessful output always ends in at least one newline byte; it can end in
more than one only when the rendered content itself ends with a newline
(see the counterexample). -/
theorem write_appends_terminator (w : CodecometWriter) (ext : Ext)
    (p : List Nat) (dec : Except String Event)
    (h : (write w ext p dec).err = none) :
    ∃ body, (write w ext p dec).out = body ++ "\n" := by
  cases dec with
  | error msg => simp [write] at h
  | ok evt =>
    cases hr : hookRes w ext evt with
    | error e => simp [write, hr] at h
    | ok buf => exact ⟨buf, by simp [write, hr]⟩

/-- Witness for `write_appends_terminator` at a concrete successful
render. -/
theorem write_appends_terminator_witness :
    (write wNoColor extNone [123, 125] (.ok [("a", JVal.str "1")])).err
      = none ∧
    ∃ body,
      (write wNoColor extNone [123, 125] (.ok [("a", JVal.str "1")])).out
        = body ++ "\n" :=
  ⟨by decide, write_appends_terminator wNoColor extNone [123, 125]
    (.ok [("a", JVal.str "1")]) (by decide)⟩

/-- Claim **C7 (amended)** — The default level formatter maps the canonical
tokens to fixed 3-letter uppercase abbreviations colored
magenta/yellow/green/red — warn, error, fatal and panic all share red,
with error/fatal/panic additionally bolded —, renders a null level as
three bolded question marks, and returns every other string value
unchanged, merely bolded (not uppercased, truncated or padded). -/
theorem formatLevel_characterization (nc : Bool) :
    consoleDefaultFormatLevel nc (.str "trace") = colorize "TRC" colorMagenta nc ∧
    consoleDefaultFormatLevel nc (.str "debug") = colorize "DBG" colorYellow nc ∧
    consoleDefaultFormatLevel nc (.str "info") = colorize "INF" colorGreen nc ∧
    consoleDefaultFormatLevel nc (.str "warn") = colorize "WRN" colorRed nc ∧
    consoleDefaultFormatLevel nc (.str "error")
      = colorize (colorize "ERR" colorRed nc) colorBold nc ∧
    consoleDefaultFormatLevel nc (.str "fatal")
      = colorize (colorize "FTL" colorRed nc) colorBold nc ∧
    consoleDefaultFormatLevel nc (.str "panic")
      = colorize (colorize "PNC" colorRed nc) colorBold nc ∧
    consoleDefaultFormatLevel nc .null = colorize "???" colorBold nc ∧
    ∀ s, s ∉ canonicalLevels →
      consoleDefaultFormatLevel nc (.str s) = colorize s colorBold nc := by
  refine ⟨rfl, rfl, rfl, rfl, rfl, rfl, rfl, rfl, ?_⟩
  intro s hs
  simp only [canonicalLevels, List.mem_cons, List.not_mem_nil, or_false,
    not_or] at hs
  obtain ⟨h1, h2, h3, h4, h5, h6, h7⟩ := hs
  simp [consoleDefaultFormatLevel, h1, h2, h3, h4, h5, h6, h7]

/-- Witness for `formatLevel_characterization` at the non-canonical token
`"silly"` with color disabled. -/
theorem formatLevel_characterization_witness :
    "silly" ∉ canonicalLevels ∧
    consoleDefaultFormatLevel true (.str "silly")
      = colorize "silly" colorBold true :=
  ⟨by decide,
    (formatLevel_characterization true).2.2.2.2.2.2.2.2 "silly" (by decide)⟩

/-- Claim **C8** — A field whose value is a numeric literal renders its original
textual token byte-for-byte: with color disabled and the default
formatters, the output of a successful decode contains `f=<token>` with
the token exactly as decoded (`UseNumber` preserves it verbatim; the
renderer never reformats it or routes it through floating point). -/
theorem write_number_token_verbatim (w : CodecometWriter) (ext : Ext)
    (p : List Nat) (evt : Event) (f tok : String)
    (hnc : w.noColor = true)
    (hfn : w.formatFieldName = none) (hefn : w.formatErrFieldName = none)
    (hfv : w.formatFieldValue = none) (hefv : w.formatErrFieldValue = none)
    (hhook : w.formatExtra = none)
    (hl : List.lookup f evt = some (.num tok))
    (hskip : shouldSkip w f = false) (hne : f ≠ "") :
    ∃ l r : List Char, (write w ext p (.ok evt)).out.data =
      l ++ (f ++ "=" ++ tok).data ++ r := by
  have hout : (write w ext p (.ok evt)).out = lineBody w ext evt ++ "\n" := by
    simp [write, hookRes, hhook]
  obtain ⟨l, r, hW⟩ := writeFields_contains w evt f
    (mem_fieldOrder w evt f _ hl hskip hne) (writeParts w ext evt)
  obtain ⟨pre, hone⟩ := renderOne_num w evt f tok hnc hfn hefn hfv hefv
    (by simp [lookupJ, hl])
  refine ⟨l ++ pre, r ++ ("\n").data, ?_⟩
  rw [hout, String.data_append,
    show lineBody w ext evt = writeFields w evt (writeParts w ext evt)
      from rfl, hW, hone]
  simp

/-- Witness for `write_number_token_verbatim` at the spec's 18-digit
example token. -/
theorem write_number_token_verbatim_witness :
    List.lookup "n"
      ([("n", JVal.num "123456789012345678")] : List (String × JVal))
      = some (JVal.num "123456789012345678") ∧
    ∃ l r : List Char,
      (write wNoColor extNone [9]
        (.ok [("n", JVal.num "123456789012345678")])).out.data =
        l ++ (("n" ++ "=" ++ "123456789012345678") : String).data ++ r :=
  ⟨by decide,
    write_number_token_verbatim wNoColor extNone [9]
      [("n", JVal.num "123456789012345678")] "n" "123456789012345678"
      rfl rfl rfl rfl rfl rfl (by decide) (by decide) (by decide)⟩

/-- Claim **C6** — A field whose value fails generic marshalling renders as the
inline diagnostic `f=[error: <cause>]` (with color disabled and default
formatters), and the write still completes successfully: the error result
is `none`, the count is `len(p)`, and the rest of the line is rendered
(the diagnostic sits inside the normally produced output). -/
theorem write_marshal_failure_inline_diag (w : CodecometWriter) (ext : Ext)
    (p : List Nat) (evt : Event) (f d cause : String)
    (hnc : w.noColor = true)
    (hfn : w.formatFieldName = none) (hefn : w.formatErrFieldName = none)
    (hhook : w.formatExtra = none) (hsink : w.sinkErr = none)
    (hl : List.lookup f evt = some (.other d (.error cause)))
    (hskip : shouldSkip w f = false) (hne : f ≠ "") :
    (write w ext p (.ok evt)).err = none ∧
    (write w ext p (.ok evt)).n = p.length ∧
    ∃ l r : List Char, (write w ext p (.ok evt)).out.data =
      l ++ (f ++ "=[error: " ++ cause ++ "]").data ++ r := by
  have hres : write w ext p (.ok evt) =
      { n := p.length, err := w.sinkErr, out := lineBody w ext evt ++ "\n" } := by
    simp [write, hookRes, hhook]
  refine ⟨by rw [hres]; exact hsink, by rw [hres], ?_⟩
  obtain ⟨l, r, hW⟩ := writeFields_contains w evt f
    (mem_fieldOrder w evt f _ hl hskip hne) (writeParts w ext evt)
  obtain ⟨pre, hone⟩ := renderOne_marshal_failure w evt f d cause hnc hfn hefn
    (by simp [lookupJ, hl])
  refine ⟨l ++ pre, r ++ ("\n").data, ?_⟩
  rw [hres]
  show (lineBody w ext evt ++ "\n").data = _
  rw [String.data_append,
    show lineBody w ext evt = writeFields w evt (writeParts w ext evt)
      from rfl, hW, hone]
  simp

/-- Witness for `write_marshal_failure_inline_diag` at a concrete record
with one well-formed field and one marshal-failing field. -/
theorem write_marshal_failure_inline_diag_witness :
    List.lookup "bad"
      ([("a", JVal.str "1"), ("bad", JVal.other "obj" (.error "marshal fail"))]
        : List (String × JVal))
      = some (JVal.other "obj" (.error "marshal fail")) ∧
    (write wNoColor extNone [5]
      (.ok [("a", JVal.str "1"),
            ("bad", JVal.other "obj" (.error "marshal fail"))])).err = none ∧
    (write wNoColor extNone [5]
      (.ok [("a", JVal.str "1"),
            ("bad", JVal.other "obj" (.error "marshal fail"))])).n = 1 ∧
    ∃ l r : List Char,
      (write wNoColor extNone [5]
        (.ok [("a", JVal.str "1"),
              ("bad", JVal.other "obj" (.error "marshal fail"))])).out.data =
        l ++ (("bad" ++ "=[error: " ++ "marshal fail" ++ "]") : String).data ++ r := by
  have h := write_marshal_failure_inline_diag wNoColor extNone [5]
    [("a", JVal.str "1"), ("bad", JVal.other "obj" (.error "marshal fail"))]
    "bad" "obj" "marshal fail" rfl rfl rfl rfl rfl
    (by decide) (by decide) (by decide)
  exact ⟨by decide, h.1, h.2.1, h.2.2⟩

/-- Claim **C9 counterexample** — A successful render can end with more than one
line terminator: the record `{message: "hi\n"}` under the default
configuration (color disabled) succeeds and its output ends with two
newline bytes, the message's own and the appended terminator. -/
theorem write_double_terminator_counterexample :
    write wNoColor extNone [1] (.ok [("message", .str "hi\n")]) =
      { n := 1, err := none,
        out := "<nil> ??? \x1b[1mcore  \x1b[0m hi\n\n" } := by
  decide

end CodecometLog
